import Mathlib

/-!
Shallow embedding of the event/room merge-rank pipeline of
`src/app.py` (SHOWROOM event participant checker), together with proofs
settling the specification claims about it.

Conventions of the embedding:
* Python values flowing through the loosely-typed dictionaries are modelled
  by `PyVal` (`None`, `int`, integral `float`, `str`).  Non-integral floats
  appear in no claim and are not modelled; a `PyVal.float n` stands for the
  IEEE-754 double whose exact value is the integer `n` (every theorem that
  quantifies over float inputs carries the representability hypothesis).
* Python `dict.get` on the fixed key sets used by the program is modelled by
  structures with one `PyVal` field per key, a missing key being `PyVal.none`.
* Python `or`-chains are `pyOr`/`pyOrs` over Python truthiness (`truthy`).
* `int(float(s))` is modelled exactly for the digit-string shapes the program
  feeds it: conversion of an integer value to a double performs IEEE-754
  round-to-nearest-even to a 53-bit significand (`round53`), overflowing to
  infinity at `2 ^ 1024` (`pyFloatOfNat`); `int()` of an infinite double
  raises `OverflowError`, which the program's `except` branches catch.
  Fractional or exponent-form numeric strings occur in no claim and are
  treated as unparseable by the timestamp parser.
* Python `str.strip()` is `pyStrip` (ASCII whitespace; no claim involves
  non-ASCII whitespace), Python `str(int)` is `intDec`/`natDec`.
-/

set_option maxRecDepth 10000

/-- Model of the Python values the pipeline's dictionaries carry:
`None`, `int`, integral `float` (exact integer value), and `str`. -/
inductive PyVal where
  | none : PyVal
  | int (n : Int) : PyVal
  | float (n : Int) : PyVal
  | str (s : String) : PyVal
  deriving DecidableEq, Repr

/-- Python truthiness: `None`, `0`, `0.0` and `""` are falsy. -/
def truthy : PyVal → Bool
  | PyVal.none => false
  | PyVal.int n => n != 0
  | PyVal.float n => n != 0
  | PyVal.str s => s != ""

/-- Python `a or b`: `a` when truthy, else `b` (returned as-is, even falsy). -/
def pyOr (a b : PyVal) : PyVal :=
  if truthy a then a else b

/-- Python `v1 or v2 or ... or None`: first truthy value, else `None`. -/
def pyOrs : List PyVal → PyVal
  | [] => PyVal.none
  | v :: vs => if truthy v then v else pyOrs vs

/-- ASCII decimal digit. -/
def isAsciiDigit (c : Char) : Bool :=
  '0' ≤ c && c ≤ '9'

/-- ASCII letter, the `[A-Za-z]` class of the rank-label regex. -/
def isAsciiAlpha (c : Char) : Bool :=
  ('A' ≤ c && c ≤ 'Z') || ('a' ≤ c && c ≤ 'z')

/-- Whitespace stripped by Python's `str.strip()` (ASCII subset; no claim
involves non-ASCII whitespace). -/
def isPyWs (c : Char) : Bool :=
  c = ' ' || c = '\t' || c = '\n' || c = '\x0d' || c = '\x0b' || c = '\x0c'

/-- Drop `isPyWs` characters from the right end of a character list. -/
def dropWsRight (l : List Char) : List Char :=
  ((l.reverse.dropWhile isPyWs)).reverse

/-- Character-list body of Python `str.strip()`. -/
def stripChars (l : List Char) : List Char :=
  dropWsRight (l.dropWhile isPyWs)

/-- Python `s.strip()`. -/
def pyStrip (s : String) : String :=
  String.mk (stripChars s.data)

/-- Numeric value of a decimal-digit character. -/
def digitVal (c : Char) : Nat :=
  c.toNat - 48

/-- Value of a list of decimal digits, most significant first
(the integer Python's `int`/`float` read from a digit run). -/
def digitsValue (l : List Char) : Nat :=
  l.foldl (fun a c => 10 * a + digitVal c) 0

/-- Decimal digit character for `n < 10`. -/
def digitChar (n : Nat) : Char :=
  Char.ofNat (48 + n)

/-- Fuel-driven decimal printer (the fuel strictly exceeds the argument, so
the fuel branch is never hit; structural recursion keeps it kernel-reducible). -/
def natDecAux : Nat → Nat → List Char
  | 0, _ => []
  | fuel + 1, n => if n < 10 then [digitChar n] else natDecAux fuel (n / 10) ++ [digitChar (n % 10)]

/-- Python `str(n)` for a natural number: decimal digits. -/
def natDec (n : Nat) : String :=
  String.mk (natDecAux (n + 1) n)

/-- Python `str(n)` for an integer: decimal digits with a leading minus sign
for negative values. -/
def intDec (n : Int) : String :=
  if n < 0 then "-" ++ natDec (-n).toNat else natDec n.toNat

/-- Python `str()` of a `PyVal`.  For integral floats this is the positional
form `"<n>.0"`, which is what Python prints for magnitudes below `10 ^ 16`;
larger floats (exponent form) occur in no claim. -/
def pyStr : PyVal → String
  | PyVal.none => "None"
  | PyVal.int n => intDec n
  | PyVal.float n => intDec n ++ ".0"
  | PyVal.str s => s

/-- Fuel-driven significant-bit count (`⌊log2 n⌋ + 1` for `n > 0`, `0` for
`n = 0`); the fuel strictly exceeds the argument. -/
def sigBitsAux : Nat → Nat → Nat
  | 0, _ => 0
  | fuel + 1, n => if n = 0 then 0 else sigBitsAux fuel (n / 2) + 1

/-- Number of significant binary digits of `n`. -/
def sigBits (n : Nat) : Nat :=
  sigBitsAux (n + 1) n

/-- IEEE-754 round-to-nearest-even of the integer `n` to a 53-bit
significand: the exact value of the double nearest to `n` (ignoring the
exponent range, handled by `pyFloatOfNat`). -/
def round53 (n : Nat) : Nat :=
  if sigBits n ≤ 53 then n
  else
    let e := sigBits n - 53
    let q := n / 2 ^ e
    let r := n % 2 ^ e
    let q1 := if 2 ^ (e - 1) < r || (r == 2 ^ (e - 1) && q % 2 == 1) then q + 1 else q
    q1 * 2 ^ e

/-- The double-overflow threshold `2 ^ 1024` written as a decimal literal so
that kernel reduction of `decide` never meets a large exponent; the theorem
`DBL_OVERFLOW_eq` checks the literal. -/
def DBL_OVERFLOW : Nat := 179769313486231590772930519078902473361797697894230657273430081157732675805500963132708477322407536021120113879871393357658789768814416622492847430639474124377767893424865485276302219601246094119453082952085005768838150682342462881473913110540827237163350510684586298239947245938479716304835356329624224137216

/-- Exact value of Python `float(n)` for a natural number `n`: the nearest
double, or `none` when the conversion overflows to infinity (value at or
above `2 ^ 1024`), in which case a later `int()` raises `OverflowError`. -/
def pyFloatOfNat (n : Nat) : Option Nat :=
  let k := round53 n
  if k < DBL_OVERFLOW then some k else Option.none

/-- Exact value of `int(float(n))` for an integer `n` (sign-symmetric
rounding; `none` models the `OverflowError` raised on overflow). -/
def pyFloatOfInt (n : Int) : Option Int :=
  if 0 ≤ n then (pyFloatOfNat n.toNat).map (fun k => (k : Int))
  else (pyFloatOfNat (-n).toNat).map (fun k => -(k : Int))

/-- Match of the regex `^\d+(\.0+)?$` from `normalize_event_id_val`,
returning the leading digit run on success (the fractional part, when
present, consists of zeros and contributes nothing to the value). -/
def splitDigitsDot0 (l : List Char) : Option (List Char) :=
  let ds := l.takeWhile isAsciiDigit
  let rest := l.dropWhile isAsciiDigit
  if ds.isEmpty then Option.none
  else
    match rest with
    | [] => some ds
    | '.' :: zs => if !zs.isEmpty && zs.all (· = '0') then some ds else Option.none
    | _ => Option.none

/-- Embedding of `normalize_event_id_val` (src/app.py lines 26-46).
`int` input: `str(val)`.  Integral `float` input: `str(int(val))` (the
`val.is_integer()` branch).  `str` input: strip; a `^\d+(\.0+)?$` match is
sent through `str(int(float(s)))`, whose `OverflowError` on huge values is
caught by the `except` branch returning `str(val).strip()`; the empty string
becomes `None`; any other string is returned stripped. -/
def normalize_event_id_val : PyVal → Option String
  | PyVal.none => Option.none
  | PyVal.int n => some (intDec n)
  | PyVal.float n => some (intDec n)
  | PyVal.str s0 =>
    let s := pyStrip s0
    match splitDigitsDot0 s.data with
    | some ds =>
      match pyFloatOfNat (digitsValue ds) with
      | some k => some (natDec k)
      | Option.none => some s
    | Option.none => if s = "" then Option.none else some s

/-- Raw event dictionary as read from the search API or the backup CSV: one
`PyVal` field per key the merge code reads (`PyVal.none` models a missing
key), plus `payload`, standing opaquely for every other field the record
carries through the merge untouched.  The Lean field `endK` renders the
Python key `"end"` (a Lean keyword). -/
structure RawEvent where
  event_id : PyVal := PyVal.none
  id : PyVal := PyVal.none
  started_at : PyVal := PyVal.none
  start_at : PyVal := PyVal.none
  startedAt : PyVal := PyVal.none
  start : PyVal := PyVal.none
  ended_at : PyVal := PyVal.none
  end_at : PyVal := PyVal.none
  endedAt : PyVal := PyVal.none
  endK : PyVal := PyVal.none
  payload : Nat := 0
  deriving DecidableEq, Repr

/-- The API-loop id chain `e.get('event_id') or e.get('id') or e.get('event_id')`
(src/app.py line 101; the third operand is a literal repetition of the first). -/
def apiIdChain (e : RawEvent) : PyVal :=
  pyOr e.event_id (pyOr e.id e.event_id)

/-- The backup-loop id chain `e.get('event_id') or e.get('id')` (line 109). -/
def backupIdChain (e : RawEvent) : PyVal :=
  pyOr e.event_id e.id

/-- Insertion-ordered dictionary, as a key-value list.  Python 3.7+ dicts
preserve insertion order and keep the original position on overwrite, which
`dictInsert` mirrors. -/
def dictInsert (k : String) (v : RawEvent) : List (String × RawEvent) → List (String × RawEvent)
  | [] => [(k, v)]
  | (k0, v0) :: rest => if k0 = k then (k0, v) :: rest else (k0, v0) :: dictInsert k v rest

/-- Lookup in the insertion-ordered dictionary (`combined[eid]` / `eid in combined`). -/
def dictLookup (k : String) : List (String × RawEvent) → Option RawEvent
  | [] => Option.none
  | (k0, v0) :: rest => if k0 = k then some v0 else dictLookup k rest

/-- First phase of `build_combined_event_list` (lines 99-105): each API event
with a non-`None` normalized id is inserted (insert-or-overwrite) under that
id, after the mutation `e['event_id'] = eid`. -/
def apiPhase (api : List RawEvent) : List (String × RawEvent) :=
  api.foldl
    (fun m e =>
      match normalize_event_id_val (apiIdChain e) with
      | Option.none => m
      | some eid => dictInsert eid { e with event_id := PyVal.str eid } m)
    []

/-- Second phase (lines 107-113): each backup event with a non-`None`
normalized id is appended only when the key is absent; the record itself is
not mutated. -/
def backupPhase (backup : List RawEvent) (m : List (String × RawEvent)) :
    List (String × RawEvent) :=
  backup.foldl
    (fun m e =>
      match normalize_event_id_val (backupIdChain e) with
      | Option.none => m
      | some eid =>
        match dictLookup eid m with
        | some _ => m
        | Option.none => m ++ [(eid, e)])
    m

/-- The merged dictionary after both phases. -/
def combinedMap (api backup : List RawEvent) : List (String × RawEvent) :=
  backupPhase backup (apiPhase api)

/-- Timestamp alias chain for `started_at`
(`e.get('started_at') or e.get('start_at') or e.get('startedAt') or e.get('start') or None`,
line 122). -/
def saChain (e : RawEvent) : PyVal :=
  pyOrs [e.started_at, e.start_at, e.startedAt, e.start]

/-- Timestamp alias chain for `ended_at` (line 123). -/
def eaChain (e : RawEvent) : PyVal :=
  pyOrs [e.ended_at, e.end_at, e.endedAt, e.endK]

/-- Tolerant timestamp coercion `int(float(sa)) if sa is not None else None`
wrapped in `try/except` (lines 124-131): any exception yields `None`.  For a
string the model parses an optional-sign digit run (stripped); fractional or
exponent float literals occur in no claim and are treated as unparseable. -/
def parse_ts : PyVal → Option Int
  | PyVal.none => Option.none
  | PyVal.int n => pyFloatOfInt n
  | PyVal.float n => some n
  | PyVal.str s =>
    match (pyStrip s).data with
    | '-' :: ds =>
      if !ds.isEmpty && ds.all isAsciiDigit then (pyFloatOfNat (digitsValue ds)).map (fun k => -(k : Int))
      else Option.none
    | '+' :: ds =>
      if !ds.isEmpty && ds.all isAsciiDigit then (pyFloatOfNat (digitsValue ds)).map (fun k => (k : Int))
      else Option.none
    | ds =>
      if !ds.isEmpty && ds.all isAsciiDigit then (pyFloatOfNat (digitsValue ds)).map (fun k => (k : Int))
      else Option.none

/-- Event record after step 3 of the merge: the raw record with the
normalized numeric timestamps attached (`e['_started_at']`, `e['_ended_at']`). -/
structure MergedEvent where
  ev : RawEvent
  startedAtN : Option Int
  endedAtN : Option Int
  deriving DecidableEq, Repr

/-- Epoch seconds of the constant `CUTOFF_DATE = datetime(2023, 9, 1, tzinfo=JST)`
(src/app.py line 23) with `JST = pytz.timezone("Asia/Tokyo")`.  A pytz zone
object used directly as `tzinfo=` applies the zone's first transition entry,
which for Asia/Tokyo is local mean time +9:18:59, rounded by pytz to +9:19;
the constant therefore denotes 2023-08-31 14:41:00 UTC, epoch `1693492860` —
not 2023-09-01 00:00 JST (+9:00), which is epoch `1693494000`. -/
def CUTOFF_EPOCH : Int := 1693492860

/-- Epoch seconds of 2023-09-01 00:00 UTC+9, the cutoff instant named by the
specification and by the code's own comment (line 22). -/
def cutoffSpecEpoch : Int := 1693494000

/-- Step 3-4 of `build_combined_event_list` (lines 116-140): attach the
normalized timestamps to every record of the merged dictionary (in dict
insertion order) and keep exactly the records whose `_started_at` is non-null
and whose instant is at or after `CUTOFF_DATE`.  The comparison
`datetime.fromtimestamp(sa_int, JST) >= CUTOFF_DATE` between aware datetimes
compares absolute instants, hence `CUTOFF_EPOCH ≤ sa`. -/
def preSortEvents (api backup : List RawEvent) : List MergedEvent :=
  (((combinedMap api backup).map Prod.snd).map
      (fun e => MergedEvent.mk e (parse_ts (saChain e)) (parse_ts (eaChain e)))).filter
    (fun m =>
      match m.startedAtN with
      | some sa => decide (CUTOFF_EPOCH ≤ sa)
      | Option.none => false)

/-- Sort key of the final sort, `lambda x: x.get('_started_at') or 0`
(line 142): `or 0` sends both `None` and `0` to `0`. -/
def startedKey (m : MergedEvent) : Int :=
  match m.startedAtN with
  | some sa => if sa = 0 then 0 else sa
  | Option.none => 0

/-- Stable insertion into a list sorted descending under the strict
comparator `gt`: the new element passes every strictly greater element and
stops before the first element not strictly greater, hence lands before
equal elements that came later in the original list.  Extensionally equal to
the (unique) stable descending sort that Python's `list.sort(key=...,
reverse=True)` performs. -/
def insertByGt (gt : α → α → Bool) (x : α) : List α → List α
  | [] => [x]
  | y :: ys => if gt y x then y :: insertByGt gt x ys else x :: y :: ys

/-- Stable insertion sort under the strict comparator `gt`. -/
def sortByGt (gt : α → α → Bool) : List α → List α
  | [] => []
  | x :: xs => insertByGt gt x (sortByGt gt xs)

/-- Strict comparator of the final event sort (descending by `startedKey`). -/
def eventGt (a b : MergedEvent) : Bool :=
  startedKey b < startedKey a

/-- Embedding of `build_combined_event_list` (src/app.py lines 93-143) as a
function of the two source lists: merge API-first, attach timestamps, filter
by the cutoff, stable-sort descending by start timestamp. -/
def build_combined_event_list (api backup : List RawEvent) : List MergedEvent :=
  sortByGt eventGt (preSortEvents api backup)

/-- Uppercase an ASCII letter (Python `str.upper()` on the `[A-Za-z]` run the
rank-label regex captured). -/
def asciiUpper (c : Char) : Char :=
  if 'a' ≤ c && c ≤ 'z' then Char.ofNat (c.toNat - 32) else c

/-- The fixed priority table `{'SS': 12, 'S': 11, 'A': 10, 'B': 9, 'C': 8,
'D': 7, 'E': 6}` with default 5 (`order_map.get(a, 5)`, lines 329-330). -/
def order_map (a : String) : Int :=
  if a = "SS" then 12
  else if a = "S" then 11
  else if a = "A" then 10
  else if a = "B" then 9
  else if a = "C" then 8
  else if a = "D" then 7
  else if a = "E" then 6
  else 5

/-- First maximal digit run of the string, `re.findall(r'\d+', s)` taking the
head (lines 333-335). -/
def firstDigitRun : List Char → Option (List Char)
  | [] => Option.none
  | c :: cs =>
    if isAsciiDigit c then some (c :: cs.takeWhile isAsciiDigit)
    else firstDigitRun cs

/-- Python comparison of int tuples (`<`): lexicographic, a strict prefix
being smaller.  The keys `rank_key` produces have length 1 or 2. -/
def pyTupLt : List Int → List Int → Bool
  | [], [] => false
  | [], _ :: _ => true
  | _ :: _, [] => false
  | a :: as0, b :: bs0 => if a < b then true else if b < a then false else pyTupLt as0 bs0

/-- Embedding of `rank_key` (src/app.py lines 319-336).  A falsy label gives
`(-1,)`.  Otherwise `str(sr)` is matched against `^([A-Za-z]+)(\d*)`: on a
match the uppercased letter run goes through `order_map` (default 5) and the
digit run (0 when empty, via the `isdigit()` guard) is the tiebreak.  With no
leading letters, the first digit run anywhere gives `(5, n)`; otherwise
`(0,)`. -/
def rank_key (sr : PyVal) : List Int :=
  if truthy sr = false then [-1]
  else
    let cs := (pyStr sr).data
    let alpha := cs.takeWhile isAsciiAlpha
    if alpha.isEmpty then
      match firstDigitRun cs with
      | some ds => [5, (digitsValue ds : Int)]
      | Option.none => [0]
    else
      let digs := (cs.dropWhile isAsciiAlpha).takeWhile isAsciiDigit
      let n : Int := if digs.isEmpty then 0 else (digitsValue digs : Int)
      [order_map (String.mk (alpha.map asciiUpper)), n]

/-- Room-profile JSON object: one `PyVal` field per key `fetch_room_profile`
reads (missing key = `PyVal.none`). -/
structure ProfileResp where
  room_name : PyVal := PyVal.none
  name : PyVal := PyVal.none
  performer_name : PyVal := PyVal.none
  room_level : PyVal := PyVal.none
  level : PyVal := PyVal.none
  lv : PyVal := PyVal.none
  show_rank_subdivided : PyVal := PyVal.none
  show_rank : PyVal := PyVal.none
  show_rank_sub : PyVal := PyVal.none
  show_rank_name : PyVal := PyVal.none
  follower_num : PyVal := PyVal.none
  follower_count : PyVal := PyVal.none
  followers : PyVal := PyVal.none
  live_continuous_days : PyVal := PyVal.none
  live_continuous : PyVal := PyVal.none
  deriving DecidableEq, Repr

/-- Record returned by `fetch_room_profile` (lines 213-230). -/
structure RoomProfile where
  room_name : PyVal
  room_level : Option Int
  show_rank : PyVal
  follower_num : Option Int
  live_continuous_days : Option Int
  room_id : String
  deriving DecidableEq, Repr

/-- Python `int(v)`: identity on ints, truncation on (integral) floats,
signed digit-run parse on stripped strings; `none` models the `ValueError` /
`TypeError` raised otherwise (underscore separators and non-ASCII digits
occur in no claim and are not modelled). -/
def pyIntCast : PyVal → Option Int
  | PyVal.int n => some n
  | PyVal.float n => some n
  | PyVal.str s =>
    match (pyStrip s).data with
    | '-' :: ds => if !ds.isEmpty && ds.all isAsciiDigit then some (-(digitsValue ds : Int)) else Option.none
    | '+' :: ds => if !ds.isEmpty && ds.all isAsciiDigit then some ((digitsValue ds : Int)) else Option.none
    | ds => if !ds.isEmpty && ds.all isAsciiDigit then some ((digitsValue ds : Int)) else Option.none
  | PyVal.none => Option.none

/-- The guarded cast `int(v) if v is not None else None` (lines 215-218):
`some (some k)` on success, `some none` when the alias chain resolved to
`None`, and `none` when `int()` raises (which aborts the whole `try` block). -/
def castOpt : PyVal → Option (Option Int)
  | PyVal.none => some Option.none
  | v => (pyIntCast v).map some

/-- Fallback record of the `except` branch of `fetch_room_profile`
(lines 221-230). -/
def fallbackProfile (rid : String) : RoomProfile :=
  { room_name := PyVal.str ("room_" ++ rid)
    room_level := Option.none
    show_rank := PyVal.none
    follower_num := Option.none
    live_continuous_days := Option.none
    room_id := rid }

/-- Alias chain for the room level, `d.get('room_level') or d.get('level') or
d.get('lv') or None` (line 208). -/
def roomLevelChain (d : ProfileResp) : PyVal :=
  pyOrs [d.room_level, d.level, d.lv]

/-- Alias chain for the follower count (line 211). -/
def followerChain (d : ProfileResp) : PyVal :=
  pyOrs [d.follower_num, d.follower_count, d.followers]

/-- Alias chain for the live-continuous-days count (line 212). -/
def liveContinuousChain (d : ProfileResp) : PyVal :=
  pyOrs [d.live_continuous_days, d.live_continuous]

/-- Alias chain for the room name, ending in the literal `""` (line 207). -/
def roomNameChain (d : ProfileResp) : PyVal :=
  pyOr d.room_name (pyOr d.name (pyOr d.performer_name (PyVal.str "")))

/-- Alias chain for the show rank (line 210). -/
def showRankChain (d : ProfileResp) : PyVal :=
  pyOrs [d.show_rank_subdivided, d.show_rank, d.show_rank_sub, d.show_rank_name]

/-- Decides whether any of the three `int()` casts of the success path raises
(in which case control reaches the `except` branch). -/
def numericCastsFail (d : ProfileResp) : Bool :=
  (castOpt (roomLevelChain d)).isNone
    || (castOpt (followerChain d)).isNone
    || (castOpt (liveContinuousChain d)).isNone

/-- Embedding of `fetch_room_profile` (src/app.py lines 201-230) as a
function of the fetched JSON object; `resp = none` models any fetch/parse
failure (network error, non-2xx, malformed JSON).  An `int()` cast failure
inside the `try` block also lands in the `except` branch, yielding the same
fallback record. -/
def fetch_room_profile (rid : String) (resp : Option ProfileResp) : RoomProfile :=
  match resp with
  | Option.none => fallbackProfile rid
  | some d =>
    match castOpt (roomLevelChain d), castOpt (followerChain d), castOpt (liveContinuousChain d) with
    | some rl, some fo, some lc =>
      { room_name := roomNameChain d
        room_level := rl
        show_rank := showRankChain d
        follower_num := fo
        live_continuous_days := lc
        room_id := rid }
    | _, _, _ => fallbackProfile rid

/-- Raw entry of the room list returned by the room-list API: either not a
dict (skipped by the `isinstance` guard) or a dict carrying the keys read by
the extractor, with an optional nested `room` object. -/
structure RoomInner where
  room_id : PyVal := PyVal.none
  id : PyVal := PyVal.none
  deriving DecidableEq, Repr

/-- Room-list entry (lines 294-304). -/
inductive RawRoom where
  | nondict : RawRoom
  | dict (room_id : PyVal) (id : PyVal) (room : Option RoomInner) : RawRoom
  deriving DecidableEq, Repr

/-- Identifier extraction for one raw room entry (lines 294-304):
`r.get('room_id') or r.get('id') or None`, then, only when that is `None`,
the nested `r['room']` chain (whose last operand is returned even when
falsy); a final `None` is skipped, anything else goes through `str()`. -/
def extractRoomId : RawRoom → Option String
  | RawRoom.nondict => Option.none
  | RawRoom.dict roomId idv inner =>
    let rid := pyOrs [roomId, idv]
    let rid :=
      if rid = PyVal.none then
        match inner with
        | some i => pyOr i.room_id i.id
        | Option.none => PyVal.none
      else rid
    if rid = PyVal.none then Option.none else some (pyStr rid)

/-- Order-preserving deduplication keeping first occurrences
(`seen = set(); [x for x in room_entries if not (x in seen or seen.add(x))]`,
lines 306-307). -/
def dedupFirstAux (seen : List String) : List String → List String
  | [] => []
  | x :: xs => if seen.contains x then dedupFirstAux seen xs else x :: dedupFirstAux (x :: seen) xs

/-- The deduplicated, first-occurrence-ordered list of room id strings
(`room_entries`, lines 293-307). -/
def room_entries (rooms_raw : List RawRoom) : List String :=
  dedupFirstAux [] (rooms_raw.filterMap extractRoomId)

/-- The `pd.to_numeric(..., errors='coerce').fillna(-1)` treatment of the
numeric profile columns (lines 341-342): a null becomes `-1`. -/
def toNumericFill (v : Option Int) : Int :=
  v.getD (-1)

/-- Strict comparator of the participant sort
`sort_values(by=['rank_key','room_level','follower_num'],
ascending=[False, False, False])` (line 346): lexicographically by Python
tuple comparison on `rank_key`, then the two integer columns, all
descending.  `sort_values` guarantees only the ordering, which is all the
claims use; the embedding instantiates it with the stable `sortByGt`. -/
def profGt (a b : RoomProfile) : Bool :=
  if rank_key a.show_rank ≠ rank_key b.show_rank then
    pyTupLt (rank_key b.show_rank) (rank_key a.show_rank)
  else if toNumericFill a.room_level ≠ toNumericFill b.room_level then
    toNumericFill b.room_level < toNumericFill a.room_level
  else
    toNumericFill b.follower_num < toNumericFill a.follower_num

/-- The displayed ranking (lines 309-348): profiles are fetched for the first
50 deduplicated room ids only (`room_entries[:50]`), sorted, and cut to the
top 10 (`prof_df.head(10)`).  `fetch` maps a room id to the profile response
(`none` = fetch failure), standing for the network collaborator. -/
def topRankedProfiles (fetch : String → Option ProfileResp) (rooms_raw : List RawRoom) :
    List RoomProfile :=
  let ids := (room_entries rooms_raw).take 50
  let profiles := ids.map (fun rid => fetch_room_profile rid (fetch rid))
  (sortByGt profGt profiles).take 10

/-- Second application of the normalizer to its own output, for the
idempotence claim: a `None` result feeds back as Python `None`, a string
result feeds back as a string. -/
def normalizeAgain (v : PyVal) : Option String :=
  match normalize_event_id_val v with
  | Option.none => normalize_event_id_val PyVal.none
  | some s => normalize_event_id_val (PyVal.str s)

/-- Strict total-order test used by the trichotomy proof below. -/
theorem pyTupLt_trichotomy (a b : List Int) :
    pyTupLt a b = true ∨ a = b ∨ pyTupLt b a = true := by
  induction a generalizing b with
  | nil =>
    cases b with
    | nil => exact Or.inr (Or.inl rfl)
    | cons y ys => exact Or.inl rfl
  | cons x xs ih =>
    cases b with
    | nil => exact Or.inr (Or.inr rfl)
    | cons y ys =>
      rcases lt_trichotomy x y with hxy | hxy | hxy
      · left
        simp [pyTupLt, hxy]
      · subst hxy
        rcases ih ys with h | h | h
        · left
          simp [pyTupLt, h]
        · subst h
          exact Or.inr (Or.inl rfl)
        · right
          right
          simp [pyTupLt, h]
      · right
        right
        simp [pyTupLt, hxy]

/-- C1.  The claim's retention half holds: an event whose start timestamp is
exactly the cutoff instant 2023-09-01 00:00 UTC+9 (epoch 1693494000) is
retained, and a null start timestamp is dropped.  Its drop half fails on the
code: an event starting one second earlier (epoch 1693493999, i.e.
2023-08-31 23:59:59 JST) is also retained, because `CUTOFF_DATE` is built
with a pytz zone object as `tzinfo=`, which applies Tokyo's local-mean-time
offset +9:19 instead of +9:00 and shifts the effective cutoff to
2023-08-31 23:41:00 JST — contradicting the code's own comment
"only include events started_at >= 2023-09-01" (line 22) and the UI header.
This theorem evaluates the embedded code at all three inputs. -/
theorem c1_cutoff_code_eval :
    (build_combined_event_list
        [{ event_id := PyVal.int 1, started_at := PyVal.int 1693494000 }] []).length = 1
      ∧ (build_combined_event_list
          [{ event_id := PyVal.int 2, started_at := PyVal.int 1693493999 }] []).length = 1
      ∧ (build_combined_event_list
          [{ event_id := PyVal.int 3, started_at := PyVal.none }] []).length = 0 := by
  refine ⟨by decide, by decide, by decide⟩

/-- C5.  The rank-label keys satisfy the claimed strict ordering chain
rank_key "S4" > rank_key "S1" > rank_key "A10" > rank_key "B1" > rank_key "",
and the claimed mechanism: the letter run goes through the priority table
(SS ↦ 12, S ↦ 11, A ↦ 10, B ↦ 9, C ↦ 8, D ↦ 7, E ↦ 6), an unknown letter
run scores 5, and the numeric suffix (0 when absent) is the tiebreak placed
after the letter score. -/
theorem c5_rank_order_chain :
    pyTupLt (rank_key (PyVal.str "S1")) (rank_key (PyVal.str "S4")) = true
      ∧ pyTupLt (rank_key (PyVal.str "A10")) (rank_key (PyVal.str "S1")) = true
      ∧ pyTupLt (rank_key (PyVal.str "B1")) (rank_key (PyVal.str "A10")) = true
      ∧ pyTupLt (rank_key (PyVal.str "")) (rank_key (PyVal.str "B1")) = true
      ∧ rank_key (PyVal.str "S4") = [11, 4]
      ∧ rank_key (PyVal.str "S1") = [11, 1]
      ∧ rank_key (PyVal.str "A10") = [10, 10]
      ∧ rank_key (PyVal.str "B1") = [9, 1]
      ∧ rank_key (PyVal.str "") = [-1]
      ∧ rank_key (PyVal.str "SS2") = [12, 2]
      ∧ rank_key (PyVal.str "Z3") = [5, 3]
      ∧ rank_key (PyVal.str "A") = [10, 0]
      ∧ rank_key (PyVal.str "C9") = [8, 1 + 8]
      ∧ rank_key (PyVal.str "D1") = [7, 1]
      ∧ rank_key (PyVal.str "E5") = [6, 5] := by
  decide

/-- C6.  `rank_key` is a total Lean function over every modelled input
(absent, empty, well-formed or malformed label), and any two keys it
produces are comparable under the Python tuple order: the induced order on
labels is total and the parser has no failure path. -/
theorem c6_rank_key_total (x y : PyVal) :
    pyTupLt (rank_key x) (rank_key y) = true
      ∨ rank_key x = rank_key y
      ∨ pyTupLt (rank_key y) (rank_key x) = true :=
  pyTupLt_trichotomy (rank_key x) (rank_key y)

/-- C7.  For every room id whose profile fetch or parse fails,
`fetch_room_profile` returns (rather than raises) the fallback record:
`room_name = "room_" + room_id`, the requested id preserved as `room_id`,
and every other field null. -/
theorem c7_profile_fallback (rid : String) :
    fetch_room_profile rid Option.none =
      { room_name := PyVal.str ("room_" ++ rid)
        room_level := Option.none
        show_rank := PyVal.none
        follower_num := Option.none
        live_continuous_days := Option.none
        room_id := rid } :=
  rfl

/-- Lookup is unaffected by appending entries when the key is already bound. -/
theorem dictLookup_append_of_some {k : String} {m : List (String × RawEvent)} {v : RawEvent}
    (l : List (String × RawEvent)) (h : dictLookup k m = some v) :
    dictLookup k (m ++ l) = some v := by
  induction m with
  | nil => simp [dictLookup] at h
  | cons p rest ih =>
    obtain ⟨k0, v0⟩ := p
    by_cases hk : k0 = k
    · simp [dictLookup, hk] at h ⊢
      exact h
    · simp [dictLookup, hk] at h ⊢
      exact ih h

/-- The backup phase inserts only under absent keys, so it never changes the
binding of a key the API phase produced. -/
theorem backupPhase_preserves (backup : List RawEvent) :
    ∀ (m : List (String × RawEvent)) (k : String) (v : RawEvent),
      dictLookup k m = some v → dictLookup k (backupPhase backup m) = some v := by
  induction backup with
  | nil => intro m k v h; exact h
  | cons e rest ih =>
    intro m k v h
    show dictLookup k (backupPhase rest _) = some v
    cases hn : normalize_event_id_val (backupIdChain e) with
    | none =>
      refine ih _ k v ?_
      simp [backupPhase, List.foldl, hn] at *
      exact h
    | some eid =>
      cases hl : dictLookup eid m with
      | none =>
        refine ih _ k v ?_
        simp only [backupPhase, List.foldl, hn, hl]
        exact dictLookup_append_of_some _ h
      | some w =>
        refine ih _ k v ?_
        simp only [backupPhase, List.foldl, hn, hl]
        exact h

/-- C2.  Merge precedence: whenever the API phase bound a normalized id to a
record, the fully merged dictionary still binds that id to the very same
record, field for field — a backup record sharing the id never overwrites
it. -/
theorem c2_api_precedence (api backup : List RawEvent) (eid : String) (v : RawEvent)
    (h : dictLookup eid (apiPhase api) = some v) :
    dictLookup eid (combinedMap api backup) = some v :=
  backupPhase_preserves backup (apiPhase api) eid v h

/-- C2 witness: an API record with id 10 and a backup record whose id
"10.0" normalizes to the same key but whose other fields differ; the merged
dictionary keeps the API record (with its id normalized in place). -/
theorem c2_api_precedence_witness :
    dictLookup "10"
        (combinedMap
          [{ event_id := PyVal.int 10, started_at := PyVal.int 1699000000, payload := 1 }]
          [{ event_id := PyVal.str "10.0", started_at := PyVal.str "1000000000", payload := 2 }]) =
      some { event_id := PyVal.str "10", started_at := PyVal.int 1699000000, payload := 1 } :=
  c2_api_precedence
    [{ event_id := PyVal.int 10, started_at := PyVal.int 1699000000, payload := 1 }]
    [{ event_id := PyVal.str "10.0", started_at := PyVal.str "1000000000", payload := 2 }]
    "10"
    { event_id := PyVal.str "10", started_at := PyVal.int 1699000000, payload := 1 }
    (by decide)

/-- Stable insertion produces a permutation of consing the element. -/
theorem insertByGt_perm (gt : α → α → Bool) (x : α) :
    ∀ l : List α, List.Perm (insertByGt gt x l) (x :: l) := by
  intro l
  induction l with
  | nil => simp [insertByGt]
  | cons y ys ih =>
    by_cases h : gt y x = true
    · simp only [insertByGt, h, if_true]
      exact (ih.cons y).trans (List.Perm.swap x y ys)
    · simp [insertByGt, h]

/-- The stable sort is a permutation of its input. -/
theorem sortByGt_perm (gt : α → α → Bool) :
    ∀ l : List α, List.Perm (sortByGt gt l) l := by
  intro l
  induction l with
  | nil => simp [sortByGt]
  | cons x xs ih =>
    exact (insertByGt_perm gt x (sortByGt gt xs)).trans (ih.cons x)

/-- Both branches of `fetch_room_profile` record the requested id. -/
theorem fetch_room_profile_room_id (rid : String) (resp : Option ProfileResp) :
    (fetch_room_profile rid resp).room_id = rid := by
  cases resp with
  | none => rfl
  | some d =>
    simp only [fetch_room_profile]
    cases castOpt (roomLevelChain d) with
    | none => rfl
    | some rl =>
      cases castOpt (followerChain d) with
      | none => rfl
      | some fo =>
        cases castOpt (liveContinuousChain d) with
        | none => rfl
        | some lc => rfl

/-- C10.  The displayed ranking draws only on the first 50 deduplicated room
ids: a room id outside `room_entries[:50]` — in particular one whose first
occurrence is at position 51 or later — never appears among the ranked
output rows, whatever its rank label, level or follower count. -/
theorem c10_top10_from_first50 (fetch : String → Option ProfileResp)
    (rooms_raw : List RawRoom) (rid : String)
    (h : rid ∉ (room_entries rooms_raw).take 50) :
    rid ∉ (topRankedProfiles fetch rooms_raw).map RoomProfile.room_id := by
  intro hmem
  rcases List.mem_map.mp hmem with ⟨p, hp, hpid⟩
  have hp1 : p ∈ sortByGt profGt
      (((room_entries rooms_raw).take 50).map (fun r => fetch_room_profile r (fetch r))) :=
    List.mem_of_mem_take hp
  have hp2 : p ∈ ((room_entries rooms_raw).take 50).map
      (fun r => fetch_room_profile r (fetch r)) :=
    (sortByGt_perm profGt _).mem_iff.mp hp1
  rcases List.mem_map.mp hp2 with ⟨r, hr, hpr⟩
  have : p.room_id = r := by
    rw [← hpr]
    exact fetch_room_profile_room_id r (fetch r)
  have hridr : rid = r := by rw [← hpid, this]
  exact h (by rw [hridr]; exact hr)

/-- C10 witness: 51 rooms with distinct ids "1".."51"; id "51" first occurs
at position 51 and is absent from the ranked output. -/
theorem c10_top10_from_first50_witness :
    "51" ∉ (topRankedProfiles (fun _ => Option.none)
        ((List.range 51).map
          (fun i => RawRoom.dict (PyVal.int (Int.ofNat (i + 1))) PyVal.none Option.none))).map
      RoomProfile.room_id :=
  c10_top10_from_first50 (fun _ => Option.none)
    ((List.range 51).map
      (fun i => RawRoom.dict (PyVal.int (Int.ofNat (i + 1))) PyVal.none Option.none))
    "51" (by decide)

/-- Inserting into a descending-sorted event list keeps it sorted. -/
theorem insertByGt_event_pairwise (x : MergedEvent) (l : List MergedEvent)
    (h : l.Pairwise (fun a b => startedKey b ≤ startedKey a)) :
    (insertByGt eventGt x l).Pairwise (fun a b => startedKey b ≤ startedKey a) := by
  induction l with
  | nil => simp [insertByGt]
  | cons y ys ih =>
    rw [List.pairwise_cons] at h
    obtain ⟨hy, hys⟩ := h
    by_cases hc : eventGt y x = true
    · have hlt : startedKey x < startedKey y := by
        simpa [eventGt] using hc
      simp only [insertByGt, hc, if_true]
      rw [List.pairwise_cons]
      refine ⟨?_, ih hys⟩
      intro z hz
      rcases List.mem_cons.mp ((insertByGt_perm eventGt x ys).mem_iff.mp hz) with hz | hz
      · rw [hz]
        exact le_of_lt hlt
      · exact hy z hz
    · have hle : startedKey y ≤ startedKey x := by
        have := hc
        simp only [eventGt, decide_eq_true_eq] at this
        omega
      rw [show insertByGt eventGt x (y :: ys) = x :: y :: ys from by
        simp [insertByGt, hc]]
      rw [List.pairwise_cons]
      refine ⟨?_, List.pairwise_cons.mpr ⟨hy, hys⟩⟩
      intro z hz
      rcases List.mem_cons.mp hz with hz | hz
      · rw [hz]; exact hle
      · exact le_trans (hy z hz) hle

/-- The final event sort produces a list sorted descending by start key. -/
theorem sortByGt_event_pairwise (l : List MergedEvent) :
    (sortByGt eventGt l).Pairwise (fun a b => startedKey b ≤ startedKey a) := by
  induction l with
  | nil => simp [sortByGt]
  | cons x xs ih => exact insertByGt_event_pairwise x (sortByGt eventGt xs) ih

/-- Stability at the level of one insertion: restricted to any fixed key
value, inserting either prepends the element (its own key) or leaves the
restriction untouched, because the elements it passes over have strictly
greater keys. -/
theorem filter_insertByGt_event (v : Int) (x : MergedEvent) (l : List MergedEvent) :
    (insertByGt eventGt x l).filter (fun e => decide (startedKey e = v))
      = if startedKey x = v then
          x :: l.filter (fun e => decide (startedKey e = v))
        else l.filter (fun e => decide (startedKey e = v)) := by
  induction l with
  | nil =>
    by_cases hx : startedKey x = v
    · simp [insertByGt, List.filter, hx]
    · simp [insertByGt, List.filter, hx]
  | cons y ys ih =>
    by_cases hc : eventGt y x = true
    · have hlt : startedKey x < startedKey y := by
        simpa [eventGt] using hc
      simp only [insertByGt, hc, if_true]
      by_cases hx : startedKey x = v
      · have hy : ¬ startedKey y = v := by omega
        simp [List.filter_cons, ih, hx, hy]
      · by_cases hy : startedKey y = v
        · simp [List.filter_cons, ih, hx, hy]
        · simp [List.filter_cons, ih, hx, hy]
    · rw [show insertByGt eventGt x (y :: ys) = x :: y :: ys from by
        simp [insertByGt, hc]]
      by_cases hx : startedKey x = v
      · simp [List.filter_cons, hx]
      · simp [List.filter_cons, hx]

/-- Stability of the whole sort: restricted to any fixed start-key value the
sorted list equals the unsorted list, i.e. equal-key records keep their
insertion order. -/
theorem filter_sortByGt_event (v : Int) (l : List MergedEvent) :
    (sortByGt eventGt l).filter (fun e => decide (startedKey e = v))
      = l.filter (fun e => decide (startedKey e = v)) := by
  induction l with
  | nil => simp [sortByGt]
  | cons x xs ih =>
    show (insertByGt eventGt x (sortByGt eventGt xs)).filter _ = _
    rw [filter_insertByGt_event]
    by_cases hx : startedKey x = v
    · simp [List.filter_cons, hx, ih]
    · simp [List.filter_cons, hx, ih]

/-- C8.  The merged event list is sorted by start timestamp descending;
records with equal start timestamps keep the relative order of their
insertion during the merge (the filter-by-key restriction of the output
equals that of the pre-sort list); and for three events with start
timestamps cutoff+100, cutoff+300, cutoff+200 (all past the cutoff) the
output key order is [cutoff+300, cutoff+200, cutoff+100]. -/
theorem c8_merge_sort_desc_stable :
    (∀ api backup : List RawEvent,
      (build_combined_event_list api backup).Pairwise
        (fun a b => startedKey b ≤ startedKey a))
      ∧ (∀ (api backup : List RawEvent) (v : Int),
        (build_combined_event_list api backup).filter (fun e => decide (startedKey e = v))
          = (preSortEvents api backup).filter (fun e => decide (startedKey e = v)))
      ∧ (build_combined_event_list
            [{ event_id := PyVal.int 1, started_at := PyVal.int (cutoffSpecEpoch + 100) },
             { event_id := PyVal.int 2, started_at := PyVal.int (cutoffSpecEpoch + 300) },
             { event_id := PyVal.int 3, started_at := PyVal.int (cutoffSpecEpoch + 200) }]
            []).map startedKey
          = [cutoffSpecEpoch + 300, cutoffSpecEpoch + 200, cutoffSpecEpoch + 100] := by
  refine ⟨?_, ?_, by decide⟩
  · intro api backup
    exact sortByGt_event_pairwise (preSortEvents api backup)
  · intro api backup v
    exact filter_sortByGt_event v (preSortEvents api backup)

/-- C3 counterexample: a profile response whose `room_name` is "X" and whose
`room_level` is the non-numeric string "abc".  The claim predicts
`room_level = null` with `room_name` kept as "X"; the code instead reaches
the `except` branch (the `int()` cast raises inside the `try` block) and
returns the fallback record, whose `room_name` is "room_1". -/
theorem c3_cast_failure_counterexample :
    (fetch_room_profile "1"
          (some { room_name := PyVal.str "X", room_level := PyVal.str "abc" })).room_name
        = PyVal.str "room_1"
      ∧ (fetch_room_profile "1"
          (some { room_name := PyVal.str "X", room_level := PyVal.str "abc" })).room_name
        ≠ PyVal.str "X" := by
  refine ⟨by decide, by decide⟩

/-- C3 as amended: an integer-cast failure on any of the three numeric
fields is fatal for the whole record — `fetch_room_profile` returns the full
fallback record (`room_name = "room_" + id`, every other field null), not a
record with only that field nulled.  (Only a field that is absent or falsy,
hence `None` before the cast, becomes null with the other fields kept.) -/
theorem c3_cast_failure_amended (rid : String) (d : ProfileResp)
    (h : numericCastsFail d = true) :
    fetch_room_profile rid (some d) = fallbackProfile rid := by
  cases hrl : castOpt (roomLevelChain d) with
  | none => simp [fetch_room_profile, hrl]
  | some rl =>
    cases hfo : castOpt (followerChain d) with
    | none => simp [fetch_room_profile, hrl, hfo]
    | some fo =>
      cases hlc : castOpt (liveContinuousChain d) with
      | none => simp [fetch_room_profile, hrl, hfo, hlc]
      | some lc =>
        exfalso
        simp [numericCastsFail, hrl, hfo, hlc] at h

/-- C3 witness: the amended statement applied to a concrete response with a
non-castable `room_level`. -/
theorem c3_cast_failure_amended_witness :
    fetch_room_profile "1"
        (some { room_name := PyVal.str "X", room_level := PyVal.str "abc" })
      = fallbackProfile "1" :=
  c3_cast_failure_amended "1"
    { room_name := PyVal.str "X", room_level := PyVal.str "abc" } (by decide)

/-- The fuel argument of `sigBitsAux` is irrelevant once it exceeds the
value. -/
theorem sigBitsAux_fuel (n : Nat) : ∀ f, n < f → sigBitsAux f n = sigBits n := by
  induction n using Nat.strong_induction_on with
  | _ n ih =>
    intro f hf
    match f, hf with
    | f + 1, hf =>
      by_cases hn : n = 0
      · subst hn
        rfl
      · have hhalf : n / 2 < n := Nat.div_lt_self (Nat.pos_of_ne_zero hn) (by norm_num)
        have h1 : sigBitsAux (f + 1) n = sigBitsAux f (n / 2) + 1 := by
          simp [sigBitsAux, hn]
        have h2 : sigBits n = sigBitsAux n (n / 2) + 1 := by
          show sigBitsAux (n + 1) n = _
          simp [sigBitsAux, hn]
        rw [h1, h2, ih (n / 2) hhalf f (by omega), ih (n / 2) hhalf n (by omega)]

/-- Unfolding equation of `sigBits` on positive input. -/
theorem sigBits_succ_div (n : Nat) (hn : n ≠ 0) : sigBits n = sigBits (n / 2) + 1 := by
  have hhalf : n / 2 < n := Nat.div_lt_self (Nat.pos_of_ne_zero hn) (by norm_num)
  have h2 : sigBits n = sigBitsAux n (n / 2) + 1 := by
    show sigBitsAux (n + 1) n = _
    simp [sigBitsAux, hn]
  rw [h2, sigBitsAux_fuel (n / 2) n hhalf]

/-- Every number is below `2 ^ sigBits`. -/
theorem lt_pow_sigBits (n : Nat) : n < 2 ^ sigBits n := by
  induction n using Nat.strong_induction_on with
  | _ n ih =>
    by_cases hn : n = 0
    · subst hn
      decide
    · have hhalf : n / 2 < n := Nat.div_lt_self (Nat.pos_of_ne_zero hn) (by norm_num)
      have := ih (n / 2) hhalf
      rw [sigBits_succ_div n hn, pow_succ]
      omega

/-- Every positive number reaches `2 ^ (sigBits - 1)`. -/
theorem pow_sigBits_pred_le (n : Nat) (hn : n ≠ 0) : 2 ^ (sigBits n - 1) ≤ n := by
  induction n using Nat.strong_induction_on with
  | _ n ih =>
    by_cases h1 : n / 2 = 0
    · have : n = 1 := by omega
      subst this
      decide
    · have hhalf : n / 2 < n := Nat.div_lt_self (Nat.pos_of_ne_zero hn) (by norm_num)
      have hrec := ih (n / 2) hhalf h1
      have hpos : 1 ≤ sigBits (n / 2) := by
        rw [sigBits_succ_div (n / 2) h1]
        omega
      rw [sigBits_succ_div n hn]
      have hs : 2 ^ (sigBits (n / 2) + 1 - 1) = 2 ^ (sigBits (n / 2) - 1) * 2 := by
        rw [Nat.add_sub_cancel]
        conv_lhs => rw [show sigBits (n / 2) = sigBits (n / 2) - 1 + 1 from by omega]
        rw [pow_succ]
      rw [hs]
      omega

/-- Smallness transfers to the bit count. -/
theorem sigBits_le_of_lt_pow {n k : Nat} (h : n < 2 ^ k) : sigBits n ≤ k := by
  by_cases hn : n = 0
  · subst hn
    simp [sigBits, sigBitsAux]
  · by_contra hgt
    push_neg at hgt
    have h1 : 2 ^ (sigBits n - 1) ≤ n := pow_sigBits_pred_le n hn
    have h2 : 2 ^ k ≤ 2 ^ (sigBits n - 1) :=
      Nat.pow_le_pow_right (by norm_num) (by omega)
    omega

/-- Largeness transfers to the bit count. -/
theorem lt_sigBits_of_pow_le {n k : Nat} (h : 2 ^ k ≤ n) : k < sigBits n := by
  have h1 := lt_pow_sigBits n
  have : 2 ^ k < 2 ^ sigBits n := lt_of_le_of_lt h h1
  exact (Nat.pow_lt_pow_iff_right (by norm_num)).mp this

/-- Below `2 ^ 53` a double is exact: `round53` is the identity. -/
theorem round53_small {n : Nat} (h : n < 2 ^ 53) : round53 n = n := by
  have : sigBits n ≤ 53 := sigBits_le_of_lt_pow h
  simp [round53, this]

/-- Below `2 ^ 53` Python `float()` is exact and finite. -/
theorem pyFloatOfNat_small {n : Nat} (h : n < 2 ^ 53) : pyFloatOfNat n = some n := by
  have h1 : round53 n = n := round53_small h
  have h2 : n < DBL_OVERFLOW := by
    have : (2 : Nat) ^ 53 < DBL_OVERFLOW := by decide
    omega
  simp [pyFloatOfNat, h1, h2]

/-- C4 counterexample: the claim's own example input "12345678901234567890"
(20 digits, above `2 ^ 53`).  The code computes `str(int(float(s)))`, and the
round trip through the double rounds to 12345678901234567168, so the
returned string is not "the decimal integer string of those digits". -/
theorem c4_normalize_counterexample :
    normalize_event_id_val (PyVal.str "12345678901234567890")
        = some "12345678901234567168"
      ∧ normalize_event_id_val (PyVal.str "12345678901234567890")
        ≠ some "12345678901234567890" := by
  refine ⟨by decide, by decide⟩

/-- C4 as amended: on a stripped string matching `^\d+(\.0+)?$` the
normalizer returns the decimal string of `int(float(s))`, which equals the
decimal integer string of the digits (fractional zero suffix stripped)
whenever their value is below `2 ^ 53` (double-exact range) — not in
general; an empty string gives null; any other non-empty string is returned
stripped, otherwise unchanged. -/
theorem c4_normalize_amended (s : String) :
    (∀ ds : List Char, splitDigitsDot0 (pyStrip s).data = some ds →
      digitsValue ds < 2 ^ 53 →
      normalize_event_id_val (PyVal.str s) = some (natDec (digitsValue ds)))
      ∧ (pyStrip s = "" → normalize_event_id_val (PyVal.str s) = Option.none)
      ∧ (splitDigitsDot0 (pyStrip s).data = Option.none → pyStrip s ≠ "" →
        normalize_event_id_val (PyVal.str s) = some (pyStrip s)) := by
  refine ⟨?_, ?_, ?_⟩
  · intro ds hds hlt
    have hf : pyFloatOfNat (digitsValue ds) = some (digitsValue ds) := pyFloatOfNat_small hlt
    simp [normalize_event_id_val, hds, hf]
  · intro h
    have h0 : splitDigitsDot0 (("" : String).data) = Option.none := by decide
    simp [normalize_event_id_val, h, h0]
  · intro hnone hne
    simp [normalize_event_id_val, hnone, hne]

/-- C4 witness: the amended statement applied to "  10.0  " (digit string
with fractional zero suffix, double-exact), "  " (stripped-empty) and
" abc " (no match). -/
theorem c4_normalize_amended_witness :
    normalize_event_id_val (PyVal.str "  10.0  ") = some "10"
      ∧ normalize_event_id_val (PyVal.str "  ") = Option.none
      ∧ normalize_event_id_val (PyVal.str " abc ") = some "abc" := by
  refine ⟨?_, ?_, ?_⟩
  · exact ((c4_normalize_amended "  10.0  ").1 ('1' :: '0' :: []) (by decide)
      (by decide)).trans (by decide)
  · exact (c4_normalize_amended "  ").2.1 (by decide)
  · exact ((c4_normalize_amended " abc ").2.2 (by decide) (by decide)).trans (by decide)

/-- Dropping a satisfied prefix twice is the same as dropping it once. -/
theorem dropWhile_idem (p : α → Bool) (l : List α) :
    (l.dropWhile p).dropWhile p = l.dropWhile p := by
  induction l with
  | nil => rfl
  | cons x xs ih =>
    by_cases h : p x = true
    · rw [List.dropWhile_cons_of_pos h]
      exact ih
    · simp [List.dropWhile_cons_of_neg h]

/-- A list none of whose elements satisfy the predicate is untouched. -/
theorem dropWhile_eq_self_of_none {p : α → Bool} {l : List α}
    (h : ∀ c ∈ l, p c = false) : l.dropWhile p = l := by
  cases l with
  | nil => rfl
  | cons x xs =>
    exact List.dropWhile_cons_of_neg (by simp [h x (List.mem_cons_self x xs)])

/-- The head surviving a `dropWhile` does not satisfy the predicate. -/
theorem dropWhile_head_false {p : α → Bool} {l : List α} {x : α} {xs : List α}
    (h : l.dropWhile p = x :: xs) : p x = false := by
  induction l with
  | nil => simp [List.dropWhile] at h
  | cons y ys ih =>
    by_cases hy : p y = true
    · rw [List.dropWhile_cons_of_pos hy] at h
      exact ih h
    · rw [List.dropWhile_cons_of_neg hy] at h
      injection h with h1 h2
      rw [← h1]
      exact Bool.not_eq_true _ |>.mp hy

/-- Right-side whitespace trimming twice equals once. -/
theorem dropWsRight_idem (l : List Char) : dropWsRight (dropWsRight l) = dropWsRight l := by
  unfold dropWsRight
  rw [List.reverse_reverse, dropWhile_idem]

/-- Right-side trimming passes over a non-whitespace head. -/
theorem dropWsRight_cons_of_not {x : Char} {l : List Char} (hx : isPyWs x = false) :
    dropWsRight (x :: l) = x :: dropWsRight l := by
  unfold dropWsRight
  rw [List.reverse_cons, List.dropWhile_append]
  by_cases h : (l.reverse.dropWhile isPyWs).isEmpty = true
  · rw [if_pos h]
    rw [List.isEmpty_iff] at h
    rw [h]
    have hxx : List.dropWhile isPyWs [x] = [x] :=
      List.dropWhile_cons_of_neg (by simp [hx])
    rw [hxx]
    rfl
  · rw [if_neg (by simp [h])]
    rw [List.reverse_append]
    rfl

/-- Python `strip()` is idempotent at the character-list level. -/
theorem stripChars_idem (l : List Char) : stripChars (stripChars l) = stripChars l := by
  unfold stripChars
  have h1 : (dropWsRight (l.dropWhile isPyWs)).dropWhile isPyWs
      = dropWsRight (l.dropWhile isPyWs) := by
    cases hc : l.dropWhile isPyWs with
    | nil => rfl
    | cons x xs =>
      have hx : isPyWs x = false := dropWhile_head_false hc
      rw [dropWsRight_cons_of_not hx]
      exact List.dropWhile_cons_of_neg (by simp [hx])
  rw [h1, dropWsRight_idem]

/-- Python `strip()` is idempotent. -/
theorem pyStrip_idem (s : String) : pyStrip (pyStrip s) = pyStrip s := by
  show String.mk (stripChars (String.mk (stripChars s.data)).data) = _
  rw [show (String.mk (stripChars s.data)).data = stripChars s.data from rfl, stripChars_idem]
  rfl

/-- A string with no whitespace anywhere is its own strip. -/
theorem stripChars_eq_self_of_no_ws {l : List Char}
    (h : ∀ c ∈ l, isPyWs c = false) : stripChars l = l := by
  unfold stripChars dropWsRight
  rw [dropWhile_eq_self_of_none h,
    dropWhile_eq_self_of_none (fun c hc => h c (List.mem_reverse.mp hc)),
    List.reverse_reverse]

/-- String form of `stripChars_eq_self_of_no_ws`. -/
theorem pyStrip_eq_self_of_no_ws {s : String}
    (h : ∀ c ∈ s.data, isPyWs c = false) : pyStrip s = s := by
  cases s with
  | mk d =>
    show String.mk (stripChars d) = String.mk d
    rw [stripChars_eq_self_of_no_ws h]

/-- The fuel argument of `natDecAux` is irrelevant once it exceeds the value. -/
theorem natDecAux_fuel (n : Nat) : ∀ f, n < f → natDecAux f n = natDecAux (n + 1) n := by
  induction n using Nat.strong_induction_on with
  | _ n ih =>
    intro f hf
    match f, hf with
    | f + 1, hf =>
      by_cases h : n < 10
      · simp [natDecAux, h]
      · have h10 : n / 10 < n := Nat.div_lt_self (by omega) (by norm_num)
        have e1 : natDecAux (f + 1) n = natDecAux f (n / 10) ++ [digitChar (n % 10)] := by
          simp [natDecAux, h]
        have e2 : natDecAux (n + 1) n = natDecAux n (n / 10) ++ [digitChar (n % 10)] := by
          simp [natDecAux, h]
        rw [e1, e2, ih (n / 10) h10 f (by omega), ih (n / 10) h10 n (by omega)]

/-- Digit characters are ASCII digits. -/
theorem digitChar_digit {n : Nat} (h : n < 10) : isAsciiDigit (digitChar n) = true := by
  interval_cases n <;> decide

/-- Digit characters decode to their digit. -/
theorem digitVal_digitChar {n : Nat} (h : n < 10) : digitVal (digitChar n) = n := by
  interval_cases n <;> decide

/-- Appending one digit multiplies the value by ten and adds it. -/
theorem digitsValue_append (l : List Char) (c : Char) :
    digitsValue (l ++ [c]) = 10 * digitsValue l + digitVal c := by
  simp [digitsValue, List.foldl_append]

/-- The decimal printer produces a non-empty all-digit string whose decimal
value is the printed number. -/
theorem natDec_spec (n : Nat) :
    (natDec n).data ≠ []
      ∧ (∀ c ∈ (natDec n).data, isAsciiDigit c = true)
      ∧ digitsValue (natDec n).data = n := by
  induction n using Nat.strong_induction_on with
  | _ n ih =>
    by_cases h : n < 10
    · have hd : (natDec n).data = [digitChar n] := by
        simp [natDec, natDecAux, h]
      rw [hd]
      refine ⟨by simp, ?_, ?_⟩
      · intro c hc
        rw [List.mem_singleton] at hc
        rw [hc]
        exact digitChar_digit h
      · simp [digitsValue, List.foldl, digitVal_digitChar h]
    · have h10 : n / 10 < n := Nat.div_lt_self (by omega) (by norm_num)
      have hmod : n % 10 < 10 := Nat.mod_lt _ (by norm_num)
      have hd : (natDec n).data = (natDec (n / 10)).data ++ [digitChar (n % 10)] := by
        show natDecAux (n + 1) n = _
        have e2 : natDecAux (n + 1) n = natDecAux n (n / 10) ++ [digitChar (n % 10)] := by
          simp [natDecAux, h]
        rw [e2, natDecAux_fuel (n / 10) n h10]
        rfl
      obtain ⟨hne, hdig, hval⟩ := ih (n / 10) h10
      rw [hd]
      refine ⟨by simp, ?_, ?_⟩
      · intro c hc
        rcases List.mem_append.mp hc with hc | hc
        · exact hdig c hc
        · rw [List.mem_singleton] at hc
          rw [hc]
          exact digitChar_digit hmod
      · rw [digitsValue_append, hval, digitVal_digitChar hmod]
        omega

/-- A list all of whose elements satisfy the predicate is its own
`takeWhile`. -/
theorem takeWhile_eq_self_of_all {p : α → Bool} {l : List α}
    (h : ∀ c ∈ l, p c = true) : l.takeWhile p = l := by
  induction l with
  | nil => rfl
  | cons x xs ih =>
    rw [List.takeWhile_cons_of_pos (h x (List.mem_cons_self x xs))]
    rw [ih (fun c hc => h c (List.mem_cons_of_mem x hc))]

/-- A list all of whose elements satisfy the predicate has empty
`dropWhile`. -/
theorem dropWhile_eq_nil_of_all {p : α → Bool} {l : List α}
    (h : ∀ c ∈ l, p c = true) : l.dropWhile p = [] := by
  induction l with
  | nil => rfl
  | cons x xs ih =>
    rw [List.dropWhile_cons_of_pos (h x (List.mem_cons_self x xs))]
    exact ih (fun c hc => h c (List.mem_cons_of_mem x hc))

/-- A non-empty all-digit character list matches the id-normalizer regex,
yielding itself as the digit run. -/
theorem splitDigitsDot0_all_digits {l : List Char} (hne : l ≠ [])
    (h : ∀ c ∈ l, isAsciiDigit c = true) : splitDigitsDot0 l = some l := by
  unfold splitDigitsDot0
  rw [takeWhile_eq_self_of_all h, dropWhile_eq_nil_of_all h]
  simp [List.isEmpty_iff, hne]

/-- ASCII digits are not Python whitespace. -/
theorem digit_not_ws {c : Char} (h : isAsciiDigit c = true) : isPyWs c = false := by
  by_contra hw
  rw [Bool.not_eq_false] at hw
  simp only [isPyWs, Bool.or_eq_true, decide_eq_true_eq] at hw
  rcases hw with ((((rfl | rfl) | rfl) | rfl) | rfl) | rfl <;> exact absurd h (by decide)

/-- The minus sign is not Python whitespace. -/
theorem minus_not_ws : isPyWs '-' = false := by decide

/-- Characterization of the bit count from two-power bounds. -/
theorem sigBits_eq {m t : Nat} (h1 : 2 ^ t ≤ m) (h2 : m < 2 ^ (t + 1)) :
    sigBits m = t + 1 :=
  le_antisymm (sigBits_le_of_lt_pow h2) (lt_sigBits_of_pow_le h1)

/-- Unfolding of `round53` in the rounding regime. -/
theorem round53_of_gt {n : Nat} (h : 53 < sigBits n) :
    round53 n =
      (if 2 ^ (sigBits n - 53 - 1) < n % 2 ^ (sigBits n - 53)
          || (n % 2 ^ (sigBits n - 53) == 2 ^ (sigBits n - 53 - 1)
              && (n / 2 ^ (sigBits n - 53)) % 2 == 1)
        then n / 2 ^ (sigBits n - 53) + 1 else n / 2 ^ (sigBits n - 53))
        * 2 ^ (sigBits n - 53) := by
  rw [round53, if_neg (by omega)]

/-- A 53-bit significand scaled by a positive power of two is a fixed point
of `round53`: the remainder vanishes, so no rounding happens. -/
theorem round53_exact {a e : Nat} (h52 : 2 ^ 52 ≤ a) (h53 : a < 2 ^ 53) (he : 1 ≤ e) :
    round53 (a * 2 ^ e) = a * 2 ^ e := by
  have hpow : (0 : Nat) < 2 ^ e := Nat.pos_pow_of_pos e (by norm_num)
  have hk1 : 2 ^ (52 + e) ≤ a * 2 ^ e := by
    rw [pow_add]
    exact Nat.mul_le_mul_right _ h52
  have hk2 : a * 2 ^ e < 2 ^ (53 + e) := by
    rw [pow_add]
    exact Nat.mul_lt_mul_of_lt_of_le h53 (le_refl _) hpow
  have hsb : sigBits (a * 2 ^ e) = 53 + e := by
    have := sigBits_eq hk1 (by rw [show 52 + e + 1 = 53 + e from by omega]; exact hk2)
    omega
  have h53lt : 53 < sigBits (a * 2 ^ e) := by omega
  rw [round53_of_gt h53lt, hsb]
  rw [show 53 + e - 53 = e from by omega]
  rw [Nat.mul_mod_left, Nat.mul_div_cancel _ hpow]
  have hc2 : ((0 : Nat) == 2 ^ (e - 1)) = false := by
    have h1 : (1 : Nat) ≤ 2 ^ (e - 1) := Nat.one_le_two_pow
    simp only [beq_eq_false_iff_ne]
    omega
  rw [hc2]
  simp

/-- `round53` is idempotent: rounding to the nearest double is stable. -/
theorem round53_idem (n : Nat) : round53 (round53 n) = round53 n := by
  by_cases h : sigBits n ≤ 53
  · have h1 : round53 n = n := by simp [round53, h]
    rw [h1, h1]
  · push_neg at h
    have hn0 : n ≠ 0 := by
      intro h0
      subst h0
      simp [sigBits, sigBitsAux] at h
    rw [round53_of_gt h]
    have he1 : 1 ≤ sigBits n - 53 := by omega
    have hq2 : n / 2 ^ (sigBits n - 53) < 2 ^ 53 := by
      have hlt : n < 2 ^ (53 + (sigBits n - 53)) := by
        have h1 := lt_pow_sigBits n
        rw [show 53 + (sigBits n - 53) = sigBits n from by omega]
        exact h1
      rw [Nat.div_lt_iff_lt_mul (Nat.pos_pow_of_pos _ (by norm_num))]
      rw [← pow_add]
      exact hlt
    have hq1 : 2 ^ 52 ≤ n / 2 ^ (sigBits n - 53) := by
      have hge : 2 ^ (52 + (sigBits n - 53)) ≤ n := by
        have h1 := pow_sigBits_pred_le n hn0
        rw [show 52 + (sigBits n - 53) = sigBits n - 1 from by omega]
        exact h1
      rw [Nat.le_div_iff_mul_le (Nat.pos_pow_of_pos _ (by norm_num))]
      rw [← pow_add]
      exact hge
    by_cases hcond : (2 ^ (sigBits n - 53 - 1) < n % 2 ^ (sigBits n - 53)
        || (n % 2 ^ (sigBits n - 53) == 2 ^ (sigBits n - 53 - 1)
            && (n / 2 ^ (sigBits n - 53)) % 2 == 1)) = true
    · rw [if_pos hcond]
      by_cases hq53 : n / 2 ^ (sigBits n - 53) + 1 = 2 ^ 53
      · rw [hq53]
        have hsplit : (2 : Nat) ^ 53 * 2 ^ (sigBits n - 53)
            = 2 ^ 52 * 2 ^ (sigBits n - 53 + 1) := by
          rw [← pow_add, ← pow_add]
          congr 1
          omega
        rw [hsplit]
        exact round53_exact (le_refl _) (by norm_num) (by omega)
      · exact round53_exact (by omega) (by omega) he1
    · rw [if_neg hcond]
      exact round53_exact hq1 hq2 he1

/-- A value Python successfully converted to a finite double converts to
itself again. -/
theorem pyFloatOfNat_idem {n k : Nat} (h : pyFloatOfNat n = some k) :
    pyFloatOfNat k = some k := by
  unfold pyFloatOfNat at h ⊢
  by_cases hd : round53 n < DBL_OVERFLOW
  · rw [if_pos hd] at h
    injection h with h
    rw [← h, round53_idem]
    rw [if_pos hd]
  · rw [if_neg hd] at h
    exact absurd h (by simp)

/-- A printed natural number whose value is double-exact is a fixed point of
the id normalizer: stripping keeps it, the regex matches it, and the float
round trip reproduces it. -/
theorem normalize_str_natDec {k : Nat} (h : pyFloatOfNat k = some k) :
    normalize_event_id_val (PyVal.str (natDec k)) = some (natDec k) := by
  obtain ⟨hne, hdig, hval⟩ := natDec_spec k
  have hstrip : pyStrip (natDec k) = natDec k :=
    pyStrip_eq_self_of_no_ws (fun c hc => digit_not_ws (hdig c hc))
  have hsplit : splitDigitsDot0 (pyStrip (natDec k)).data = some (natDec k).data := by
    rw [hstrip]
    exact splitDigitsDot0_all_digits hne hdig
  simp [normalize_event_id_val, hsplit, hval, h]

/-- A printed negative integer is a fixed point of the id normalizer: the
leading minus sign defeats the all-digits regex, the string is non-empty and
free of whitespace, so it is returned unchanged. -/
theorem normalize_str_intDec_neg {n : Int} (hn : n < 0) :
    normalize_event_id_val (PyVal.str (intDec n)) = some (intDec n) := by
  obtain ⟨hne, hdig, _⟩ := natDec_spec (-n).toNat
  have hd : (intDec n).data = '-' :: (natDec (-n).toNat).data := by
    simp [intDec, hn]
  have hnows : ∀ c ∈ (intDec n).data, isPyWs c = false := by
    intro c hc
    rw [hd] at hc
    rcases List.mem_cons.mp hc with rfl | hc
    · exact minus_not_ws
    · exact digit_not_ws (hdig c hc)
  have hstrip : pyStrip (intDec n) = intDec n := pyStrip_eq_self_of_no_ws hnows
  have hsplit : splitDigitsDot0 (intDec n).data = Option.none := by
    rw [hd]
    unfold splitDigitsDot0
    rw [List.takeWhile_cons_of_neg (by decide)]
    simp
  have hnempty : intDec n ≠ "" := by
    intro hEq
    have hnil : (intDec n).data = [] := by rw [hEq]
    rw [hd] at hnil
    exact absurd hnil (by simp)
  simp [normalize_event_id_val, hstrip, hsplit, hnempty]

/-- A nonnegative integer that `float()` reproduces exactly gives an exact
`pyFloatOfNat` on its absolute value. -/
theorem pyFloatOfNat_of_pyFloatOfInt {n : Int} (h0 : 0 ≤ n)
    (h : pyFloatOfInt n = some n) : pyFloatOfNat n.toNat = some n.toNat := by
  unfold pyFloatOfInt at h
  rw [if_pos h0] at h
  cases hf : pyFloatOfNat n.toNat with
  | none =>
    rw [hf] at h
    exact absurd h (by simp)
  | some m =>
    rw [hf] at h
    have hmn : (m : Int) = n := by
      simpa using h
    have hm : m = n.toNat := by omega
    rw [hm]

/-- Every printed integer the code can produce from a Python int or integral
float feeds back through the normalizer unchanged, provided the value is
double-representable (negative values unconditionally, since the minus sign
escapes the regex). -/
theorem normalize_str_intDec {n : Int} (h : n < 0 ∨ pyFloatOfInt n = some n) :
    normalize_event_id_val (PyVal.str (intDec n)) = some (intDec n) := by
  by_cases hn : n < 0
  · exact normalize_str_intDec_neg hn
  · have h0 : 0 ≤ n := by omega
    have hrep : pyFloatOfInt n = some n := h.resolve_left hn
    have hf : pyFloatOfNat n.toNat = some n.toNat := pyFloatOfNat_of_pyFloatOfInt h0 hrep
    have hposDec : intDec n = natDec n.toNat := by
      simp [intDec, hn]
    rw [hposDec]
    exact normalize_str_natDec hf

/-- String inputs are unconditionally idempotent under the normalizer: every
branch of the string case returns either null or a fixed point. -/
theorem normalize_str_idem (s : String) :
    normalizeAgain (PyVal.str s) = normalize_event_id_val (PyVal.str s) := by
  cases hsplit : splitDigitsDot0 (pyStrip s).data with
  | some ds =>
    cases hf : pyFloatOfNat (digitsValue ds) with
    | some k =>
      have h1 : normalize_event_id_val (PyVal.str s) = some (natDec k) := by
        simp [normalize_event_id_val, hsplit, hf]
      have hk : pyFloatOfNat k = some k := pyFloatOfNat_idem hf
      rw [h1]
      show normalizeAgain (PyVal.str s) = _
      rw [normalizeAgain, h1]
      exact normalize_str_natDec hk
    | none =>
      have h1 : normalize_event_id_val (PyVal.str s) = some (pyStrip s) := by
        simp [normalize_event_id_val, hsplit, hf]
      have hsplit2 : splitDigitsDot0 (pyStrip (pyStrip s)).data = some ds := by
        rw [pyStrip_idem]
        exact hsplit
      rw [h1]
      show normalizeAgain (PyVal.str s) = _
      rw [normalizeAgain, h1]
      simp [normalize_event_id_val, pyStrip_idem, hsplit, hf]
  | none =>
    by_cases hempty : pyStrip s = ""
    · have h1 : normalize_event_id_val (PyVal.str s) = Option.none := by
        simp only [normalize_event_id_val, hsplit]
        rw [if_pos hempty]
      rw [h1]
      show normalizeAgain (PyVal.str s) = _
      rw [normalizeAgain, h1]
      rfl
    · have h1 : normalize_event_id_val (PyVal.str s) = some (pyStrip s) := by
        simp only [normalize_event_id_val, hsplit]
        rw [if_neg hempty]
      rw [h1]
      show normalizeAgain (PyVal.str s) = _
      rw [normalizeAgain, h1]
      simp [normalize_event_id_val, pyStrip_idem, hsplit, hempty]

/-- C9 counterexample: the claim quantifies over every integer input, but
the int branch returns `str(val)` without a float round trip while the
second application's string branch does round-trip through the double, so a
non-representable integer (here 12345678901234567890, whose double is
12345678901234567168) breaks idempotence. -/
theorem c9_idempotence_counterexample :
    normalizeAgain (PyVal.int 12345678901234567890)
        = some "12345678901234567168"
      ∧ normalizeAgain (PyVal.int 12345678901234567890)
        ≠ normalize_event_id_val (PyVal.int 12345678901234567890) := by
  refine ⟨by decide, by decide⟩

/-- C9 as amended: the normalizer is idempotent on null, on every string
(hence every empty string and every numeric string with a trailing ".0"),
and on every int or integral-float input whose value round-trips through an
IEEE-754 double (negative values unconditionally); it fails only for
integers at or above `2 ^ 53` that no double represents exactly. -/
theorem c9_idempotence_amended :
    (∀ n : Int, (n < 0 ∨ pyFloatOfInt n = some n) →
      normalizeAgain (PyVal.int n) = normalize_event_id_val (PyVal.int n))
      ∧ (∀ n : Int, (n < 0 ∨ pyFloatOfInt n = some n) →
        normalizeAgain (PyVal.float n) = normalize_event_id_val (PyVal.float n))
      ∧ (∀ s : String, normalizeAgain (PyVal.str s) = normalize_event_id_val (PyVal.str s))
      ∧ normalizeAgain PyVal.none = normalize_event_id_val PyVal.none := by
  refine ⟨?_, ?_, normalize_str_idem, rfl⟩
  · intro n h
    show normalize_event_id_val (PyVal.str (intDec n)) = some (intDec n)
    exact normalize_str_intDec h
  · intro n h
    show normalize_event_id_val (PyVal.str (intDec n)) = some (intDec n)
    exact normalize_str_intDec h

/-- C9 witness: the amended statement applied to the representable integer
10, the negative integer -12345678901234567890 and the integral float 5. -/
theorem c9_idempotence_amended_witness :
    normalizeAgain (PyVal.int 10) = normalize_event_id_val (PyVal.int 10)
      ∧ normalizeAgain (PyVal.int (-12345678901234567890))
        = normalize_event_id_val (PyVal.int (-12345678901234567890))
      ∧ normalizeAgain (PyVal.float 5) = normalize_event_id_val (PyVal.float 5) :=
  ⟨c9_idempotence_amended.1 10 (Or.inr (by decide)),
   c9_idempotence_amended.1 (-12345678901234567890) (Or.inl (by decide)),
   c9_idempotence_amended.2.1 5 (Or.inr (by decide))⟩
